import Mathlib

/-!
Verification of the query engine of the broken-links metadata app
(`app.py`: `parse_advanced_search`, `filter_dataframe_advanced`,
`_search_any_field`, `field_filter`).

The Python code is shallowly embedded: a pandas DataFrame row becomes a
`Record`, a DataFrame becomes a `List Record`, boolean masks become
`List Bool`, and a computation that can raise a Python exception returns
`Except Unit`.  String primitives (`str.lower`, `str.strip`, `in`,
`str.replace`, `re` matching) are modelled character-exactly for ASCII
input; Python's Unicode-aware case folding and `\w`/`\s` classes are
modelled by their ASCII subsets, which covers every input used below.
-/

deriving instance DecidableEq for Except

/-- The six characters stripped by Python `str.strip()` and matched by
regex `\s` (ASCII subset). -/
def pySpaceB (c : Char) : Bool :=
  c == ' ' || c == '\t' || c == '\n' || c == '\r' || c == '\x0b' || c == '\x0c'

/-- ASCII model of Python `str.lower` on one character. -/
def lowerChar (c : Char) : Char :=
  if 'A' ≤ c ∧ c ≤ 'Z' then Char.ofNat (c.toNat + 32) else c

/-- ASCII model of Python `str.lower`. -/
def lowerList (l : List Char) : List Char := l.map lowerChar

/-- Left part of Python `str.strip`. -/
def ltrim (l : List Char) : List Char := l.dropWhile pySpaceB

/-- Right part of Python `str.strip`. -/
def rtrim (l : List Char) : List Char := (l.reverse.dropWhile pySpaceB).reverse

/-- Python `str.strip()`. -/
def stripList (l : List Char) : List Char := rtrim (ltrim l)

/-- Python substring test: `sub in l` (also used for pandas non-regex
containment on already-escaped patterns). -/
def infixB (sub l : List Char) : Bool := l.tails.any fun r => sub.isPrefixOf r

/-- Python `needle in hay` on strings. -/
def pyIn (needle hay : String) : Bool := infixB needle.data hay.data

/-! ### A fragment of Python `re`

`filter_dataframe_advanced` hands raw user text to `pandas.Series.str.contains`,
which compiles it with `re.compile`.  We model the fragment of Python regular
expressions in which every character is either a literal or the
any-character wildcard `.` (which does not match a newline).  A pattern
containing any other regex metacharacter is modelled as a compile error
(`Except.error`); Python itself raises on the unbalanced `(` patterns used
in the theorems below, and every pattern that a theorem below evaluates
successfully lies inside the literal/`.` fragment, where the model is
character-exact. -/

/-- Regex metacharacters of Python `re` other than `.`. -/
def reMeta (c : Char) : Bool :=
  c == '^' || c == '$' || c == '*' || c == '+' || c == '?' ||
  c == '\x7b' || c == '\x7d' || c == '[' || c == ']' || c == '\\' ||
  c == '|' || c == '(' || c == ')'

/-- A pattern is inside the modelled fragment: no metacharacter besides `.`. -/
def reValid (pat : List Char) : Bool := pat.all fun c => !reMeta c

/-- A pattern all of whose characters are literal (no metacharacter, no `.`). -/
def reLiteral (pat : List Char) : Bool := pat.all fun c => !reMeta c && c != '.'

/-- One compiled regex token of the modelled fragment. -/
inductive RTok where
  | lit (c : Char)
  | dot
deriving DecidableEq

/-- Compile a fragment pattern: `.` is the wildcard, all else literal. -/
def reTokens (pat : List Char) : List RTok :=
  pat.map fun c => if c = '.' then RTok.dot else RTok.lit c

/-- One token against one character; `.` does not match a newline. -/
def tokMatches : RTok → Char → Bool
  | RTok.lit a, c => a == c
  | RTok.dot, c => c != '\n'

/-- Anchored match of a token list against a prefix of `l`. -/
def reMatchHere : List RTok → List Char → Bool
  | [], _ => true
  | _ :: _, [] => false
  | tk :: tks, c :: cs => tokMatches tk c && reMatchHere tks cs

/-- Unanchored `re.search`: the tokens match at some position. -/
def reSearchB (tks : List RTok) (l : List Char) : Bool :=
  l.tails.any fun r => reMatchHere tks r

/-! ### The wildcard/negation field matcher `field_filter`

`field_filter` builds `re.escape(val).replace('\\*', '.*')`: every
character of `val` is literal except `*`, which becomes `.*`.  Matching
such a pattern is glob-style substring containment where each `*` gap
must not cross a newline.  We embed it by splitting `val` on `*` and
searching the literal pieces in order. -/

/-- Python `val.split('*')`: literal pieces between the wildcards. -/
def splitStar : List Char → List (List Char)
  | [] => [[]]
  | c :: cs =>
    if c = '*' then [] :: splitStar cs
    else
      match splitStar cs with
      | p :: ps => (c :: p) :: ps
      | [] => [[c]]

/-- All suffixes of `l` reachable by deleting a newline-free gap from the
front (the ways a `.*` can advance). -/
def gapSuffixes : List Char → List (List Char)
  | [] => [[]]
  | c :: cs => (c :: cs) :: (if c = '\n' then [] else gapSuffixes cs)

/-- Match the remaining literal pieces, each preceded by a `.*` gap. -/
def matchGapped : List (List Char) → List Char → Bool
  | [], _ => true
  | p :: ps, l =>
    (gapSuffixes l).any fun r => p.isPrefixOf r && matchGapped ps (r.drop p.length)

/-- Unanchored search for the glob `p₀.*p₁.*…`: the first piece may start
anywhere, later pieces follow after newline-free gaps. -/
def globSearchB (pieces : List (List Char)) (l : List Char) : Bool :=
  match pieces with
  | [] => true
  | p :: ps => l.tails.any fun r => p.isPrefixOf r && matchGapped ps (r.drop p.length)

/-! ### The record table -/

/-- One row of the metadata DataFrame as produced by `load_data`:
scalar CSV columns may be missing (pandas `NaN` becomes `none`),
`author`/`keywords` are the semicolon-split lists, `has_pdf` is the
derived boolean column. -/
structure Record where
  bibcode : Option String
  title : Option String
  abstract : Option String
  pubdate : Option String
  url : Option String
  collection : Option String
  author : List String
  keywords : List String
  has_pdf : Bool
deriving DecidableEq

/-- `field_filter(series, value)` of `app.py` at one record: NOT/`!`
prefix handling, `*` wildcards, and the vacuous match of negated
patterns on missing/blank values. -/
def field_filter (v : Option String) (value : String) : Bool :=
  let val1 := stripList (lowerList value.data)
  let np :=
    if "not ".data.isPrefixOf val1 then (true, stripList (val1.drop 4))
    else if ['!'].isPrefixOf val1 then (true, stripList (val1.drop 1))
    else (false, val1)
  let vLower := lowerList ((v.getD "").data)
  let m := globSearchB (splitStar np.2) vLower
  if np.1 then
    !m || v.isNone || (match v with
      | none => false
      | some s => (stripList s.data).isEmpty)
  else m

/-! ### The query parser `parse_advanced_search`

The parser runs `re.finditer` with the pattern
`(\w+):"([^"]+)"|(\w+):(\S+)` over the raw query.  Both alternatives are
deterministic (the greedy `\w+`, `[^"]+` and `\S+` runs admit no useful
backtracking because the character that must follow each run cannot
belong to the run), so a match attempt at one position is a direct
case analysis.  `\w` is modelled by its ASCII subset. -/

/-- ASCII model of regex `\w`. -/
def isWordChar (c : Char) : Bool := c.isAlpha || c.isDigit || c == '_'

/-- Try to match one `name:"quoted"` or `name:value` token at the head of
`l`.  Returns the whole matched text (regex group 0), the field name, the
captured value, and the remainder after the match. -/
def tryMatchAt (l : List Char) : Option (List Char × List Char × List Char × List Char) :=
  let w := l.takeWhile isWordChar
  let r1 := l.dropWhile isWordChar
  if w.isEmpty then none
  else
    match r1 with
    | ':' :: r2 =>
      let unquoted : Option (List Char × List Char × List Char × List Char) :=
        let vv := r2.takeWhile fun c => !pySpaceB c
        let r3 := r2.dropWhile fun c => !pySpaceB c
        if vv.isEmpty then none
        else some (w ++ ':' :: vv, w, vv, r3)
      match r2 with
      | '"' :: r3 =>
        let q := r3.takeWhile fun c => c != '"'
        let r4 := r3.dropWhile fun c => c != '"'
        match q, r4 with
        | _ :: _, '"' :: r5 => some (w ++ ':' :: '"' :: q ++ ['"'], w, q, r5)
        | _, _ => unquoted
      | _ => unquoted
    | _ => none

/-- `re.finditer`: scan left to right, at each position try a match; on a
match continue after it, otherwise advance one character.  The fuel is
initialised to more than the input length, which every step consumes. -/
def findTokensF : Nat → List Char → List (List Char × List Char × List Char)
  | 0, _ => []
  | _ + 1, [] => []
  | n + 1, c :: cs =>
    match tryMatchAt (c :: cs) with
    | some (tok, f, vv, rest) => (tok, f, vv) :: findTokensF n rest
    | none => findTokensF n cs

/-- Python dict insertion with last-write-wins semantics: an existing key
keeps its position and receives the new value. -/
def dictInsert (k v : List Char) : List (List Char × List Char) → List (List Char × List Char)
  | [] => [(k, v)]
  | (k', v') :: d => if k' = k then (k', v) :: d else (k', v') :: dictInsert k v d

/-- One step of Python `s.replace(tok, '')` for non-empty `tok`:
delete every non-overlapping occurrence, scanning left to right. -/
def replTokF : Nat → List Char → List Char → List Char
  | 0, l, _ => l
  | _ + 1, [], _ => []
  | n + 1, c :: cs, tok =>
    if tok ≠ [] ∧ tok.isPrefixOf (c :: cs) then replTokF n ((c :: cs).drop tok.length) tok
    else c :: replTokF n cs tok

/-- Python `s.replace(tok, '')`. -/
def pyReplaceDel (l tok : List Char) : List Char := replTokF (l.length + 1) l tok

/-- `parse_advanced_search(search_term)`: the field-filter dict (field
names lower-cased, later occurrences overwriting) and the free-text
remainder built by deleting each matched token text with `str.replace`
and stripping the result. -/
def parse_advanced_search (search_term : String) : List (String × String) × String :=
  let toks := findTokensF (search_term.data.length + 1) search_term.data
  let filters := toks.foldl (fun d t => dictInsert (lowerList t.2.1) t.2.2 d) []
  let rest := toks.foldl (fun r t => pyReplaceDel r t.1) search_term.data
  (filters.map fun kv => (⟨kv.1⟩, ⟨kv.2⟩), ⟨stripList rest⟩)

/-- Following the claim wording for the free-text remainder: delete
exactly the matched token occurrences, each at its own span, then strip.
(The code instead uses `str.replace`, which deletes every occurrence of
the matched text.) -/
def removeTokF : Nat → List Char → List Char
  | 0, l => l
  | _ + 1, [] => []
  | n + 1, c :: cs =>
    match tryMatchAt (c :: cs) with
    | some (_, _, _, rest) => removeTokF n rest
    | none => c :: removeTokF n cs

/-- Free text as the claim describes it: the raw string with each matched
token occurrence removed in place, then stripped. -/
def specFreeTextOnce (raw : String) : String :=
  ⟨stripList (removeTokF (raw.data.length + 1) raw.data)⟩

/-! ### The evaluator `filter_dataframe_advanced`

The evaluator is embedded at the level of boolean masks, exactly as the
pandas code computes them; `filter_dataframe_advanced` then selects the
surviving rows.  The nested-parentheses branch recurses on the whole
DataFrame and converts the recursive result back to a mask with
`df.index.isin(...)`; since the index labels are the unique row
positions, that is the recursive call's mask, which is what the
embedding uses directly.  Recursion is fuelled by the query length:
every recursive call strips at least a pair of parentheses off a
substring of the query, so the fuel never runs out. -/

/-- Pointwise AND of two masks (`mask &= other`). -/
def andMasks (a b : List Bool) : List Bool := a.zipWith (fun x y => x && y) b

/-- Pointwise OR of two masks (`mask |= other`). -/
def orMasks (a b : List Bool) : List Bool := a.zipWith (fun x y => x || y) b

/-- Pointwise negation of a mask (`~mask`). -/
def notMask (m : List Bool) : List Bool := m.map fun b => !b

/-- `df[mask]`: the rows surviving a boolean mask, in order. -/
def applyMask (df : List Record) (m : List Bool) : List Record :=
  (df.zip m).filterMap fun p => if p.2 then some p.1 else none

/-- `_search_any_field(df, term)`: strip and lower the term, then search
it as a regex in the lowered `title`, `abstract`, `bibcode` columns and
as a plain substring in each `author`/`keywords` entry.  The regex is
compiled once, so an invalid pattern raises independently of the rows. -/
def search_any_field_mask (df : List Record) (term0 : String) : Except Unit (List Bool) :=
  let term := lowerList (stripList term0.data)
  if reValid term then
    Except.ok (df.map fun r =>
      reSearchB (reTokens term) (lowerList ((r.title.getD "").data)) ||
      reSearchB (reTokens term) (lowerList ((r.abstract.getD "").data)) ||
      reSearchB (reTokens term) (lowerList ((r.bibcode.getD "").data)) ||
      r.author.any (fun a => infixB term (lowerList a.data)) ||
      r.keywords.any (fun k => infixB term (lowerList k.data)))
  else Except.error ()

/-- The scalar column targeted by a `title`/`abstract`/`collection`/
`bibcode`/`url` field filter (`df[field]`). -/
def getScalarField (r : Record) : String → Option String
  | "title" => r.title
  | "abstract" => r.abstract
  | "collection" => r.collection
  | "bibcode" => r.bibcode
  | "url" => r.url
  | _ => none

/-- `value.lower() in ['true', 'yes', '1']`. -/
def truthy (value : String) : Bool :=
  lowerList value.data == "true".data || lowerList value.data == "yes".data ||
    lowerList value.data == "1".data

/-- The `has_pdf` field filter at one record. -/
def hasPdfTest (r : Record) (value : String) : Bool :=
  if value = "*" ∨ value = "" then r.has_pdf else r.has_pdf == truthy value

/-- The `no_pdf` field filter at one record. -/
def noPdfTest (r : Record) (value : String) : Bool :=
  if value = "*" ∨ value = "" then !r.has_pdf else r.has_pdf == !truthy value

/-- One `field:value` filter as a mask over the DataFrame, following the
dispatch chain of lines 144-164 of `app.py`.  Only the `year`/`pubdate`
branch hands the raw value to `str.contains` as a regex and can raise;
an unrecognized field is a no-op (all-true mask). -/
def oneFilterMask (df : List Record) (field value : String) : Except Unit (List Bool) :=
  if field = "author" ∨ field = "authors" then
    Except.ok (df.map fun r => r.author.any fun a =>
      infixB (lowerList value.data) (lowerList a.data))
  else if field = "keyword" ∨ field = "keywords" then
    Except.ok (df.map fun r => r.keywords.any fun k =>
      infixB (lowerList value.data) (lowerList k.data))
  else if field = "title" ∨ field = "abstract" ∨ field = "collection" ∨ field = "bibcode" then
    Except.ok (df.map fun r => field_filter (getScalarField r field) value)
  else if field = "url" then
    Except.ok (df.map fun r => field_filter r.url value)
  else if field = "year" ∨ field = "pubdate" then
    if reValid value.data then
      Except.ok (df.map fun r =>
        match r.pubdate with
        | none => false
        | some s => reSearchB (reTokens value.data) s.data)
    else Except.error ()
  else if field = "has_pdf" then Except.ok (df.map fun r => hasPdfTest r value)
  else if field = "no_pdf" then Except.ok (df.map fun r => noPdfTest r value)
  else Except.ok (df.map fun _ => true)

/-- The field-filter loop: AND the masks of all filters in dict order. -/
def filtersFold (df : List Record) : List (String × String) → Except Unit (List Bool)
  | [] => Except.ok (df.map fun _ => true)
  | (f, v) :: fs => do
    let m ← oneFilterMask df f v
    let rest ← filtersFold df fs
    Except.ok (andMasks m rest)

/-- Whether one filter evaluates without raising (only the `year`/`pubdate`
regex branch can raise). -/
def oneFilterValid (field value : String) : Bool :=
  if field = "year" ∨ field = "pubdate" then reValid value.data else true

/-- Whether a whole filter dict evaluates without raising. -/
def filtersValid (fs : List (String × String)) : Bool :=
  fs.all fun fv => oneFilterValid fv.1 fv.2

/-- One `field:value` filter as a per-record predicate: the row-wise
reading of `oneFilterMask` (same dispatch, same branch bodies). -/
def applyOneFilterB (field value : String) (r : Record) : Bool :=
  if field = "author" ∨ field = "authors" then
    r.author.any fun a => infixB (lowerList value.data) (lowerList a.data)
  else if field = "keyword" ∨ field = "keywords" then
    r.keywords.any fun k => infixB (lowerList value.data) (lowerList k.data)
  else if field = "title" ∨ field = "abstract" ∨ field = "collection" ∨ field = "bibcode" then
    field_filter (getScalarField r field) value
  else if field = "url" then field_filter r.url value
  else if field = "year" ∨ field = "pubdate" then
    match r.pubdate with
    | none => false
    | some s => reSearchB (reTokens value.data) s.data
  else if field = "has_pdf" then hasPdfTest r value
  else if field = "no_pdf" then noPdfTest r value
  else true

/-- A record passes a whole filter dict: conjunction over all entries. -/
def recPasses (fs : List (String × String)) (r : Record) : Bool :=
  fs.all fun fv => applyOneFilterB fv.1 fv.2 r

/-! #### The boolean free-text split

`re.split(r'\s+or\s+', …)` (and the same with `and`) separates on a
maximal whitespace run, the keyword, and a maximal whitespace run: the
greedy runs admit no backtracking because the keyword starts with a
non-space character. -/

/-- Try to consume one `\s+kw\s+` separator at the head of `s`; on
success return the remainder after the separator. -/
def trySep (kw s : List Char) : Option (List Char) :=
  if (s.takeWhile pySpaceB).isEmpty then none
  else
    let r1 := s.dropWhile pySpaceB
    if kw.isPrefixOf r1 then
      let r2 := r1.drop kw.length
      if (r2.takeWhile pySpaceB).isEmpty then none
      else some (r2.dropWhile pySpaceB)
    else none

/-- `re.split` on the `\s+kw\s+` separator, scanning left to right. -/
def splitKwF (kw : List Char) : Nat → List Char → List Char → List (List Char)
  | 0, acc, _ => [acc.reverse]
  | _ + 1, acc, [] => [acc.reverse]
  | n + 1, acc, c :: cs =>
    match trySep kw (c :: cs) with
    | some rest => acc.reverse :: splitKwF kw n [] rest
    | none => splitKwF kw n (c :: acc) cs

/-- `re.split(r'\s+' + kw + r'\s+', s)`. -/
def splitKw (kw s : List Char) : List (List Char) := splitKwF kw (s.length + 1) [] s

/-- One AND-term of the free-text grammar (lines 177-188 of `app.py`):
a `not `-prefixed term negates a whole-dataset search, a fully
parenthesized term recurses through `recur` on its interior, anything
else is a whole-dataset search. -/
def processAndPart (recur : String → Except Unit (List Bool)) (df : List Record)
    (ap : List Char) : Except Unit (List Bool) :=
  let part := stripList ap
  if "not ".data.isPrefixOf part then
    (search_any_field_mask df ⟨stripList (part.drop 4)⟩).map notMask
  else if ['('].isPrefixOf part ∧ part.getLast? = some ')' then
    recur ⟨stripList ((part.drop 1).dropLast)⟩
  else search_any_field_mask df ⟨part⟩

/-- Fold the AND-terms of one OR-group into a mask. -/
def andFold (recur : String → Except Unit (List Bool)) (df : List Record) :
    List (List Char) → List Bool → Except Unit (List Bool)
  | [], acc => Except.ok acc
  | ap :: rest, acc => do
    let m ← processAndPart recur df ap
    andFold recur df rest (andMasks acc m)

/-- Compute the mask of every OR-group, in order. -/
def orGroupMasks (recur : String → Except Unit (List Bool)) (df : List Record) :
    List (List Char) → Except Unit (List (List Bool))
  | [] => Except.ok []
  | op :: rest => do
    let m ← andFold recur df ((splitKw "and".data op).map stripList) (df.map fun _ => true)
    let ms ← orGroupMasks recur df rest
    Except.ok (m :: ms)

/-- The free-text boolean engine (lines 168-195 of `app.py`): lower the
text, split on `or`, split each group on `and`, evaluate the terms, OR
the group masks together. -/
def generalMaskF (recur : String → Except Unit (List Bool)) (df : List Record)
    (general : List Char) : Except Unit (List Bool) := do
  let orParts := (splitKw "or".data general).map stripList
  let oms ← orGroupMasks recur df orParts
  match oms with
  | [] => Except.ok (df.map fun _ => true)
  | m :: ms => Except.ok (ms.foldl orMasks m)

/-- `filter_dataframe_advanced` at the mask level.  An empty query is the
identity; otherwise the parsed field filters are ANDed in, and the
free-text engine runs only when the free text is non-empty and no field
filter is present.  The fuel bounds the parenthesis recursion depth. -/
def fda_mask : Nat → List Record → String → Except Unit (List Bool)
  | 0, _, _ => Except.error ()
  | fuel + 1, df, s =>
    if s = "" then Except.ok (df.map fun _ => true)
    else do
      let m1 ← filtersFold df (parse_advanced_search s).1
      if (parse_advanced_search s).2 ≠ "" ∧ (parse_advanced_search s).1 = [] then
        let gm ← generalMaskF (fun t => fda_mask fuel df t) df
          (lowerList (parse_advanced_search s).2.data)
        Except.ok (andMasks m1 gm)
      else Except.ok m1

/-- `filter_dataframe_advanced(df, search_term)`: the surviving rows. -/
def filter_dataframe_advanced (df : List Record) (s : String) : Except Unit (List Record) :=
  (fda_mask (s.data.length + 1) df s).map (applyMask df)

/-! ### Declarative glob semantics

Specification-side readings of wildcard matching, for comparison with
the executable matcher embedded from the code. -/

/-- Declaratively: the pieces occur in order, each preceded by a gap that
contains no newline (the semantics of `.*` between escaped pieces). -/
def GapSpec : List (List Char) → List Char → Prop
  | [], _ => True
  | p :: ps, l => ∃ g r, '\n' ∉ g ∧ l = g ++ p ++ r ∧ GapSpec ps r

/-- Declaratively: some substring of `l` is piece₀, then a newline-free
gap, then piece₁, and so on — the containment match the code's pattern
`p₀.*p₁.*…` performs (the text before piece₀ and after the last piece is
unconstrained). -/
def GlobSpec : List (List Char) → List Char → Prop
  | [], _ => True
  | p :: ps, l => ∃ pre r, l = pre ++ p ++ r ∧ GapSpec ps r

/-- The claim's glob reading: `*` stands for any sequence of characters
whatsoever (newlines included). -/
def GapSpecAny : List (List Char) → List Char → Prop
  | [], _ => True
  | p :: ps, l => ∃ g r, l = g ++ p ++ r ∧ GapSpecAny ps r

/-- The wildcard-containment semantics exactly as the claim words it:
the lower-cased field value contains the literal pieces of the pattern
in order with arbitrary character sequences in between. -/
def specWildcardMatch (pat v : String) : Prop :=
  GapSpecAny (splitStar pat.data) (lowerList v.data)

/-- The amended wildcard-containment semantics: the pattern is
lower-cased and trimmed first and each `*` gap is newline-free. -/
def specWildcardMatchFixed (pat v : String) : Prop :=
  GlobSpec (splitStar (stripList (lowerList pat.data))) (lowerList v.data)

/-! ### Concrete records for the witnesses and counterexamples -/

/-- Scenario record: a Mars paper by Smith. -/
def recA : Record :=
  { bibcode := some "A", title := some "Mars Rover", abstract := none,
    pubdate := some "2000-01-00", url := none, collection := some "LPI Collection",
    author := ["Smith, J."], keywords := [], has_pdf := false }

/-- Scenario record: a Venus paper by Doe. -/
def recB : Record :=
  { bibcode := some "B", title := some "Venus Probe", abstract := none,
    pubdate := some "2010-05-00", url := none, collection := some "LPI Collection",
    author := ["Doe, A."], keywords := [], has_pdf := true }

/-- Scenario record: an Earth paper matching neither mars nor venus. -/
def recC : Record :=
  { bibcode := some "C", title := some "Earth Survey", abstract := none,
    pubdate := none, url := some "http://leagueofplanets.org/x",
    collection := some "LPI Collection", author := [], keywords := [], has_pdf := false }

/-- The three-record table used by the concrete evaluations. -/
def tbl : List Record := [recA, recB, recC]

/-! ## Counterexamples -/

/-- C1: refuted as stated.  The query `title:mars venus` parses to the
field filter `title ↦ mars` with free text `venus`; record `recA` does
not satisfy the free-text query `venus` (third conjunct shows the
evaluator excludes it on the free-text-only query), yet it appears in
the result of the combined query — the free text is not ANDed in when a
field filter is present. -/
theorem c1_free_text_ignored_counterexample :
    (parse_advanced_search "title:mars venus").2 = "venus" ∧
    filter_dataframe_advanced [recA] "title:mars venus" = Except.ok [recA] ∧
    filter_dataframe_advanced [recA] "venus" = Except.ok [] := by decide

/-- C2: refuted as stated.  On the three-record table, the single-term
queries `mars` and `venus` return `recA` and `recB`, so the claim
demands that `not (mars or venus)` return `[recC]`; instead evaluation
raises (the OR split runs before parenthesis handling, producing the
malformed regex `(mars`). -/
theorem c2_nested_not_counterexample :
    filter_dataframe_advanced tbl "not (mars or venus)" = Except.error () ∧
    filter_dataframe_advanced tbl "mars" = Except.ok [recA] ∧
    filter_dataframe_advanced tbl "venus" = Except.ok [recB] := by decide

/-- C3: the code raises on the failing input.  The query `year:(` parses
to the filter `year ↦ (`, whose value is handed to `str.contains` as a
regular expression; `(` is an invalid pattern (unterminated subpattern)
and `re.compile` raises, modelled by `Except.error`. -/
theorem c3_year_paren_raises :
    filter_dataframe_advanced tbl "year:(" = Except.error () := by decide

/-- C5: refuted as stated.  The value `20.0` is not a verbatim substring
of `recB`'s publicationDate `2010-05-00`, yet the `year:` filter accepts
the record: the value is interpreted as a regex in which `.` matches any
character, so `20.0` finds `2010`. -/
theorem c5_year_regex_counterexample :
    filter_dataframe_advanced [recB] "year:20.0" = Except.ok [recB] ∧
    pyIn "20.0" "2010-05-00" = false := by decide

/-- C6: refuted as stated.  In the raw query `a:b t:"xa:by"` the matches
are `a:b` and `t:"xa:by"`; removing exactly those two occurrences leaves
the empty free text (second conjunct), but the code's `str.replace` also
deletes the `a:b` occurring inside the quoted value, leaving free text
`t:"xy"`. -/
theorem c6_replace_all_counterexample :
    parse_advanced_search "a:b t:\"xa:by\"" =
      ([("a", "b"), ("t", "xa:by")], "t:\"xy\"") ∧
    specFreeTextOnce "a:b t:\"xa:by\"" = "" := by decide

/-- C7: refuted as stated.  The value `a\nc` contains a substring that
starts with `a` and ends with `c` with anything in between (second
conjunct, the claim's glob reading), but the compiled pattern `a.*c`
does not match it because `.` does not cross a newline. -/
theorem c7_newline_gap_counterexample :
    field_filter (some "a\nc") "a*c" = false ∧ specWildcardMatch "a*c" "a\nc" := by
  refine ⟨by decide, ?_⟩
  show GapSpecAny (splitStar "a*c".data) (lowerList "a\nc".data)
  have h : splitStar "a*c".data = [['a'], ['c']] := by decide
  rw [h]
  show GapSpecAny [['a'], ['c']] ['a', '\n', 'c']
  exact ⟨[], ['\n', 'c'], rfl, ['\n'], [], rfl, trivial⟩

/-- C8: refuted as stated.  For the non-blank field value `not x` and the
pattern `X = not x`, the claim demands
`field_filter v "!X" = !(field_filter v X)`, but both sides are `false`:
the single prefix strip of `!not x` leaves the literal pattern `not x`,
which matches the value, while `X` itself is parsed as a negation. -/
theorem c8_double_negation_counterexample :
    field_filter (some "not x") ("!" ++ "not x") = false ∧
    field_filter (some "not x") "not x" = false ∧
    (stripList "not x".data).isEmpty = false := by decide

/-! ## Mask and filtering lemmas -/

/-- `df[mask]` on a cons cell. -/
theorem applyMask_cons (r : Record) (rs : List Record) (b : Bool) (bs : List Bool) :
    applyMask (r :: rs) (b :: bs) =
      if b then r :: applyMask rs bs else applyMask rs bs := by
  simp [applyMask, List.zip_cons_cons, List.filterMap_cons]
  cases b <;> simp

/-- Selecting rows by any boolean mask yields a subsequence of the table. -/
theorem applyMask_sublist (df : List Record) (m : List Bool) :
    (applyMask df m).Sublist df := by
  induction df generalizing m with
  | nil => simp [applyMask]
  | cons r rs ih =>
    cases m with
    | nil => simp [applyMask]
    | cons b bs =>
      rw [applyMask_cons]
      cases b with
      | false => exact (ih bs).cons r
      | true => exact (ih bs).cons₂ r

/-- Selecting by a mask computed pointwise is `List.filter`. -/
theorem applyMask_map_filter (df : List Record) (p : Record → Bool) :
    applyMask df (df.map p) = df.filter p := by
  induction df with
  | nil => rfl
  | cons r rs ih =>
    rw [List.map_cons, applyMask_cons, List.filter_cons, ih]

/-- ANDing two pointwise masks is the pointwise AND. -/
theorem andMasks_map (df : List Record) (p q : Record → Bool) :
    andMasks (df.map p) (df.map q) = df.map fun r => p r && q r := by
  induction df with
  | nil => rfl
  | cons r rs ih => simp only [List.map_cons, andMasks, List.zipWith] at ih ⊢; rw [ih]

/-- The empty query parses to no filters and empty free text. -/
theorem parse_empty : parse_advanced_search "" = ([], "") := by decide

/-- When the parsed query has at least one field filter, the whole
evaluation is the field-filter fold: the free-text branch is skipped. -/
theorem fda_mask_filters_only (fuel : Nat) (df : List Record) (s : String)
    (h : (parse_advanced_search s).1 ≠ []) :
    fda_mask (fuel + 1) df s = filtersFold df (parse_advanced_search s).1 := by
  have hs : ¬ (s = "") := by
    intro he; subst he; exact h (by decide)
  have hcond : ¬ ((parse_advanced_search s).2 ≠ "" ∧ (parse_advanced_search s).1 = []) := by
    rintro ⟨-, h2⟩; exact h h2
  unfold fda_mask
  rw [if_neg hs]
  cases hf : filtersFold df (parse_advanced_search s).1 with
  | error e => rfl
  | ok m => show (if _ ∧ _ then _ else Except.ok m) = Except.ok m; rw [if_neg hcond]

/-- A single filter whose evaluation cannot raise computes the pointwise
mask of its per-record predicate. -/
theorem oneFilterMask_eq (df : List Record) (field value : String)
    (h : oneFilterValid field value = true) :
    oneFilterMask df field value = Except.ok (df.map (applyOneFilterB field value)) := by
  unfold oneFilterMask applyOneFilterB oneFilterValid at *
  split_ifs at * <;> simp_all

/-- The mask-level filter fold equals the per-record conjunction: the
column-oriented evaluation and the row-oriented reading agree. -/
theorem filtersFold_eq (df : List Record) (fs : List (String × String))
    (h : filtersValid fs = true) :
    filtersFold df fs = Except.ok (df.map (recPasses fs)) := by
  induction fs with
  | nil => rfl
  | cons fv fs ih =>
    obtain ⟨f, v⟩ := fv
    rw [filtersValid, List.all_cons, Bool.and_eq_true] at h
    rw [filtersFold, oneFilterMask_eq df f v h.1, ih h.2]
    show Except.ok _ = _
    rw [andMasks_map]
    simp [recPasses, List.all_cons]

/-! ## Regex-fragment lemmas -/

/-- A fully literal pattern is inside the modelled regex fragment. -/
theorem reValid_of_reLiteral (pat : List Char) (h : reLiteral pat = true) :
    reValid pat = true := by
  rw [reLiteral, List.all_eq_true] at h
  rw [reValid, List.all_eq_true]
  intro c hc
  have hc2 := h c hc
  rw [Bool.and_eq_true] at hc2
  exact hc2.1

/-- Anchored matching of a fully literal pattern is the prefix test. -/
theorem reMatchHere_literal (pat : List Char) (h : reLiteral pat = true) :
    ∀ l : List Char, reMatchHere (reTokens pat) l = pat.isPrefixOf l := by
  induction pat with
  | nil => intro l; simp [reMatchHere, reTokens, List.isPrefixOf]
  | cons c cs ih =>
    rw [reLiteral, List.all_cons, Bool.and_eq_true, Bool.and_eq_true] at h
    obtain ⟨⟨-, hdot⟩, hrest⟩ := h
    have hc : c ≠ '.' := by simpa using hdot
    intro l
    have htok : reTokens (c :: cs) = RTok.lit c :: reTokens cs := by
      rw [reTokens, List.map_cons, if_neg hc]; rfl
    rw [htok]
    cases l with
    | nil => rfl
    | cons d ds =>
      show (c == d && reMatchHere (reTokens cs) ds) = (c == d && cs.isPrefixOf ds)
      rw [ih (by rw [reLiteral]; exact hrest) ds]

/-- `re.search` with a fully literal pattern is substring containment. -/
theorem reSearchB_literal (pat : List Char) (h : reLiteral pat = true) (l : List Char) :
    reSearchB (reTokens pat) l = infixB pat l := by
  rw [reSearchB, infixB]
  congr 1
  funext r
  exact reMatchHere_literal pat h r

/-! ## Free-text parser lemmas (deletion-only construction) -/

/-- `str.replace(tok, '')` only deletes characters. -/
theorem replTokF_sublist (n : Nat) (l tok : List Char) : (replTokF n l tok).Sublist l := by
  induction n generalizing l with
  | zero => exact List.Sublist.refl l
  | succ n ih =>
    cases l with
    | nil => exact List.Sublist.refl []
    | cons c cs =>
      rw [replTokF]
      split
      · exact (ih _).trans (List.drop_sublist _ _)
      · exact (ih cs).cons₂ c

/-- Folding token deletions over the raw string only deletes characters. -/
theorem foldl_replace_sublist (toks : List (List Char × List Char × List Char))
    (acc : List Char) :
    (toks.foldl (fun r t => pyReplaceDel r t.1) acc).Sublist acc := by
  induction toks generalizing acc with
  | nil => exact List.Sublist.refl acc
  | cons t ts ih =>
    rw [List.foldl_cons]
    exact (ih _).trans (replTokF_sublist _ _ _)

/-- Right trimming only deletes characters. -/
theorem rtrim_sublist (l : List Char) : (rtrim l).Sublist l := by
  have h : ((l.reverse.dropWhile pySpaceB).reverse).Sublist l.reverse.reverse :=
    (List.dropWhile_sublist _).reverse
  rw [List.reverse_reverse] at h
  exact h

/-- Stripping only deletes characters. -/
theorem stripList_sublist (l : List Char) : (stripList l).Sublist l :=
  (rtrim_sublist _).trans (List.dropWhile_sublist _)

/-! ## Glob-search correctness -/

/-- The suffixes reachable through a `.*` gap are exactly those preceded
by a newline-free prefix. -/
theorem mem_gapSuffixes (l r : List Char) :
    r ∈ gapSuffixes l ↔ ∃ g, '\n' ∉ g ∧ l = g ++ r := by
  induction l with
  | nil =>
    simp only [gapSuffixes, List.mem_singleton]
    constructor
    · rintro rfl; exact ⟨[], by simp, rfl⟩
    · rintro ⟨g, -, h⟩
      exact (List.append_eq_nil.mp h.symm).2
  | cons c cs ih =>
    by_cases hc : c = '\n'
    · subst hc
      have hgs : gapSuffixes ('\n' :: cs) = [('\n' :: cs)] := rfl
      rw [hgs]
      simp only [List.mem_singleton]
      constructor
      · rintro rfl; exact ⟨[], by simp, rfl⟩
      · rintro ⟨g, hg, h⟩
        cases g with
        | nil => exact (by simpa using h.symm)
        | cons x g' =>
          rw [List.cons_append] at h
          injection h with h1 h2
          exact absurd (h1 ▸ List.mem_cons_self x g') hg
    · rw [gapSuffixes, if_neg hc]
      simp only [List.mem_cons]
      constructor
      · rintro (rfl | hr)
        · exact ⟨[], by simp, rfl⟩
        · obtain ⟨g, hg, hcs⟩ := ih.mp hr
          refine ⟨c :: g, ?_, by rw [List.cons_append, hcs]⟩
          simp only [List.mem_cons, not_or]
          exact ⟨fun h => hc h.symm, hg⟩
      · rintro ⟨g, hg, h⟩
        cases g with
        | nil => exact Or.inl (by simpa using h.symm)
        | cons x g' =>
          rw [List.cons_append] at h
          injection h with h1 h2
          refine Or.inr (ih.mpr ⟨g', ?_, h2⟩)
          intro hmem
          exact hg (List.mem_cons_of_mem x hmem)

/-- The backtracking gap matcher agrees with the declarative gap
semantics. -/
theorem matchGapped_iff (ps : List (List Char)) (l : List Char) :
    matchGapped ps l = true ↔ GapSpec ps l := by
  induction ps generalizing l with
  | nil => simp [matchGapped, GapSpec]
  | cons p ps ih =>
    rw [matchGapped, GapSpec]
    simp only [List.any_eq_true]
    constructor
    · rintro ⟨r, hr, hb⟩
      rw [Bool.and_eq_true] at hb
      obtain ⟨g, hg, hl⟩ := (mem_gapSuffixes l r).mp hr
      obtain ⟨t, ht⟩ := List.isPrefixOf_iff_prefix.mp hb.1
      have hdrop : r.drop p.length = t := by rw [← ht, List.drop_left]
      refine ⟨g, t, hg, ?_, (ih t).mp (hdrop ▸ hb.2)⟩
      rw [hl, ← ht, List.append_assoc]
    · rintro ⟨g, t, hg, hl, hgs⟩
      refine ⟨p ++ t, (mem_gapSuffixes l (p ++ t)).mpr
        ⟨g, hg, by rw [hl, List.append_assoc]⟩, ?_⟩
      rw [Bool.and_eq_true]
      refine ⟨List.isPrefixOf_iff_prefix.mpr (List.prefix_append p t), ?_⟩
      rw [List.drop_left]
      exact (ih t).mpr hgs

/-- The executable glob search agrees with the declarative containment
semantics. -/
theorem globSearchB_iff (pieces : List (List Char)) (l : List Char) :
    globSearchB pieces l = true ↔ GlobSpec pieces l := by
  cases pieces with
  | nil => simp [globSearchB, GlobSpec]
  | cons p ps =>
    rw [globSearchB, GlobSpec]
    simp only [List.any_eq_true]
    constructor
    · rintro ⟨r, hr, hb⟩
      rw [Bool.and_eq_true] at hb
      obtain ⟨pre, hpre⟩ := (List.mem_tails r l).mp hr
      obtain ⟨t, ht⟩ := List.isPrefixOf_iff_prefix.mp hb.1
      have hdrop : r.drop p.length = t := by rw [← ht, List.drop_left]
      refine ⟨pre, t, ?_, (matchGapped_iff ps t).mp (hdrop ▸ hb.2)⟩
      rw [← hpre, ← ht, List.append_assoc]
    · rintro ⟨pre, t, hl, hgs⟩
      refine ⟨p ++ t, (List.mem_tails (p ++ t) l).mpr
        ⟨pre, by rw [hl, List.append_assoc]⟩, ?_⟩
      rw [Bool.and_eq_true]
      refine ⟨List.isPrefixOf_iff_prefix.mpr (List.prefix_append p t), ?_⟩
      rw [List.drop_left]
      exact (matchGapped_iff ps t).mpr hgs

/-! ## Strip/lower commutation lemmas -/

/-- `dropWhile` is idempotent. -/
theorem dropWhile_idem (p : Char → Bool) (l : List Char) :
    (l.dropWhile p).dropWhile p = l.dropWhile p := by
  induction l with
  | nil => rfl
  | cons c cs ih =>
    rw [List.dropWhile_cons]
    by_cases h : p c
    · rw [if_pos h]; exact ih
    · rw [if_neg h, List.dropWhile_cons, if_neg h]

/-- Right trimming a cons cell. -/
theorem rtrim_cons (c : Char) (l : List Char) :
    rtrim (c :: l) =
      if (rtrim l).isEmpty then (if pySpaceB c then [] else [c]) else c :: rtrim l := by
  rw [rtrim, List.reverse_cons, List.dropWhile_append]
  have hiso : (l.reverse.dropWhile pySpaceB).isEmpty = (rtrim l).isEmpty := by
    rw [rtrim]
    cases hh : l.reverse.dropWhile pySpaceB <;> simp [hh]
  by_cases h : (rtrim l).isEmpty
  · rw [if_pos (by rw [hiso]; exact h), if_pos h]
    rw [List.dropWhile_cons]
    by_cases hc : pySpaceB c
    · rw [if_pos hc, if_pos hc]; rfl
    · rw [if_neg hc, if_neg hc]; rfl
  · rw [if_neg (by rw [hiso]; exact h), if_neg h]
    rw [List.reverse_append, rtrim]
    rfl

/-- Right trimming keeps a non-space head. -/
theorem rtrim_cons_not_space (c : Char) (l : List Char) (hc : pySpaceB c = false) :
    rtrim (c :: l) = c :: rtrim l := by
  rw [rtrim_cons]
  by_cases h : (rtrim l).isEmpty
  · rw [if_pos h, if_neg (by simp [hc])]
    rw [List.isEmpty_iff] at h
    rw [h]
  · rw [if_neg h]

/-- Right trimming is idempotent. -/
theorem rtrim_idem (l : List Char) : rtrim (rtrim l) = rtrim l := by
  have h : (rtrim l).reverse = l.reverse.dropWhile pySpaceB := by
    rw [rtrim, List.reverse_reverse]
  rw [rtrim, h, dropWhile_idem, ← h, List.reverse_reverse]

/-- Left and right trimming commute. -/
theorem ltrim_rtrim_comm (l : List Char) : ltrim (rtrim l) = rtrim (ltrim l) := by
  induction l with
  | nil => rfl
  | cons c cs ih =>
    by_cases hc : pySpaceB c
    · have hl : ltrim (c :: cs) = ltrim cs := by
        rw [ltrim, List.dropWhile_cons, if_pos hc]; rfl
      rw [hl, rtrim_cons]
      by_cases h : (rtrim cs).isEmpty
      · rw [if_pos h, if_pos hc]
        rw [List.isEmpty_iff] at h
        rw [← ih, h]
      · rw [if_neg h]
        have hl2 : ltrim (c :: rtrim cs) = ltrim (rtrim cs) := by
          rw [ltrim, List.dropWhile_cons, if_pos hc]; rfl
        rw [hl2, ih]
    · have hcf : pySpaceB c = false := by simpa using hc
      have hl : ltrim (c :: cs) = c :: cs := by
        rw [ltrim, List.dropWhile_cons, if_neg hc]
      rw [hl, rtrim_cons_not_space c cs hcf]
      have hl2 : ltrim (c :: rtrim cs) = c :: rtrim cs := by
        rw [ltrim, List.dropWhile_cons, if_neg hc]
      rw [hl2]

/-- Stripping after a right trim is plain stripping. -/
theorem stripList_rtrim (l : List Char) : stripList (rtrim l) = stripList l := by
  rw [stripList, ltrim_rtrim_comm, rtrim_idem, stripList]

/-! ## Claim theorems -/

/-- C1 (amended): when the parsed query contains at least one field
filter (and its filters evaluate without raising), the evaluator returns
exactly the records passing every field filter — the free-text
expression is ignored; only for a query with no field filters is the
free-text filter applied. -/
theorem c1_amended_field_only (df : List Record) (q : String)
    (hne : (parse_advanced_search q).1 ≠ [])
    (hv : filtersValid (parse_advanced_search q).1 = true) :
    filter_dataframe_advanced df q =
      Except.ok (df.filter (recPasses (parse_advanced_search q).1)) := by
  unfold filter_dataframe_advanced
  rw [fda_mask_filters_only q.data.length df q hne, filtersFold_eq df _ hv]
  show Except.ok _ = _
  rw [applyMask_map_filter]

/-- C1 witness: the amended theorem applied to the two-record table and
the query `title:mars venus`. -/
theorem c1_witness :
    filter_dataframe_advanced [recA, recB] "title:mars venus" =
      Except.ok (([recA, recB]).filter
        (recPasses (parse_advanced_search "title:mars venus").1)) :=
  c1_amended_field_only [recA, recB] "title:mars venus" (by decide) (by decide)

/-- C2 (amended): evaluating the free-text query `not (mars or venus)`
raises for every table: the OR split runs before parenthesis handling
and produces the AND-term `not (mars`, whose sub-term `(mars` is an
invalid regular expression. -/
theorem c2_amended_raises (df : List Record) :
    filter_dataframe_advanced df "not (mars or venus)" = Except.error () := rfl

/-- C4: whenever evaluation returns a result, the result is a
subsequence of the input table — every output record occurs in the
input, none is duplicated, none is reordered (and the embedding is a
pure function of the table, which is never mutated). -/
theorem c4_output_subsequence (df : List Record) (s : String) (res : List Record)
    (h : filter_dataframe_advanced df s = Except.ok res) : res.Sublist df := by
  unfold filter_dataframe_advanced at h
  cases hm : fda_mask (s.data.length + 1) df s with
  | error e => rw [hm] at h; simp [Except.map] at h
  | ok m =>
    rw [hm] at h
    simp only [Except.map, Except.ok.injEq] at h
    subst h
    exact applyMask_sublist df m

/-- C4 witness: the subsequence theorem applied to the three-record
table and the query `mars`. -/
theorem c4_witness : ([recA] : List Record).Sublist tbl :=
  c4_output_subsequence tbl "mars" [recA] (by decide)

/-- C5 (amended): when the `year`/`pubdate` filter value contains no
regex metacharacter (every character literal), the filter accepts a
record exactly when the raw value occurs verbatim (case-sensitively) as
a substring of its publicationDate, a missing date matching nothing; in
general the value acts as a regular expression, not a literal. -/
theorem c5_amended_literal_substring (df : List Record) (value : String)
    (h : reLiteral value.data = true) :
    oneFilterMask df "year" value = Except.ok (df.map fun r =>
      match r.pubdate with
      | none => false
      | some s => pyIn value s) := by
  have h0 : oneFilterMask df "year" value =
      if reValid value.data then
        Except.ok (df.map fun r =>
          match r.pubdate with
          | none => false
          | some s => reSearchB (reTokens value.data) s.data)
      else Except.error () := rfl
  rw [h0, if_pos (reValid_of_reLiteral value.data h)]
  have hfn : (fun (r : Record) =>
      match r.pubdate with
      | none => false
      | some s => reSearchB (reTokens value.data) s.data) = (fun (r : Record) =>
      match r.pubdate with
      | none => false
      | some s => pyIn value s) := by
    funext r
    cases hp : r.pubdate with
    | none => rfl
    | some s => exact reSearchB_literal value.data h s.data
  rw [hfn]

/-- C5 witness: the amended theorem applied to the literal value `2000`
and the one-record table. -/
theorem c5_witness :
    reLiteral "2000".data = true ∧
    oneFilterMask [recA] "year" "2000" = Except.ok ([recA].map fun r =>
      match r.pubdate with
      | none => false
      | some s => pyIn "2000" s) :=
  ⟨by decide, c5_amended_literal_substring [recA] "2000" (by decide)⟩

/-- C6 (amended): the free text is produced from the raw query by
deletions only — for every raw query it is a subsequence of the raw
string — but the deletions are those of `str.replace`: for each match,
every occurrence of the matched token text is removed, not only the
matched occurrence. -/
theorem c6_amended_subsequence (raw : String) :
    ((parse_advanced_search raw).2).data.Sublist raw.data := by
  unfold parse_advanced_search
  exact (stripList_sublist _).trans (foldl_replace_sublist _ _)

/-- C7 (amended): for a pattern that does not parse as a negation, the
wildcard field match succeeds exactly when the lower-cased value
contains the literal pieces of the lower-cased, trimmed pattern in
order, with `*` standing for any sequence of non-newline characters; in
particular `a*c` matches `abc` and `aXYZc` but not `ab`. -/
theorem c7_amended_wildcard (pat s : String)
    (h1 : "not ".data.isPrefixOf (stripList (lowerList pat.data)) = false)
    (h2 : ['!'].isPrefixOf (stripList (lowerList pat.data)) = false) :
    (field_filter (some s) pat = true ↔ specWildcardMatchFixed pat s) := by
  have hff : field_filter (some s) pat =
      globSearchB (splitStar (stripList (lowerList pat.data))) (lowerList s.data) := by
    simp only [field_filter, h1, h2]
    rfl
  rw [hff]
  exact globSearchB_iff _ _

/-- C7 witness: the amended theorem applied to pattern `a*c` and value
`aXYZc`. -/
theorem c7_witness :
    ("not ".data.isPrefixOf (stripList (lowerList "a*c".data)) = false ∧
      ['!'].isPrefixOf (stripList (lowerList "a*c".data)) = false) ∧
    (field_filter (some "aXYZc") "a*c" = true ↔ specWildcardMatchFixed "a*c" "aXYZc") :=
  ⟨⟨by decide, by decide⟩, c7_amended_wildcard "a*c" "aXYZc" (by decide) (by decide)⟩

/-- C8 (amended): for every pattern `X` that does not itself parse as a
negation (after lower-casing and trimming it starts with neither `!`
nor `not `), and every record whose targeted value is non-blank,
matching `!X` is exactly the boolean negation of matching `X`. -/
theorem c8_amended_negation_complement (X s : String)
    (h1 : "not ".data.isPrefixOf (stripList (lowerList X.data)) = false)
    (h2 : ['!'].isPrefixOf (stripList (lowerList X.data)) = false)
    (hnb : (stripList s.data).isEmpty = false) :
    field_filter (some s) ("!" ++ X) = !(field_filter (some s) X) := by
  have hdata : ("!" ++ X).data = '!' :: X.data := by
    rw [String.data_append]; rfl
  have hval : stripList (lowerList ("!" ++ X).data) = '!' :: rtrim (lowerList X.data) := by
    rw [hdata]
    rw [show lowerList ('!' :: X.data) = '!' :: lowerList X.data from rfl]
    rw [stripList, show ltrim ('!' :: lowerList X.data) = '!' :: lowerList X.data from by
      rw [ltrim, List.dropWhile_cons, if_neg (by decide)]]
    exact rtrim_cons_not_space '!' _ (by decide)
  have hnotpre : "not ".data.isPrefixOf ('!' :: rtrim (lowerList X.data)) = false := rfl
  have hbang : ['!'].isPrefixOf ('!' :: rtrim (lowerList X.data)) = true := by
    simp [List.isPrefixOf]
  have hstr : stripList (('!' :: rtrim (lowerList X.data)).drop 1) =
      stripList (lowerList X.data) := by
    rw [List.drop_one, List.tail_cons, stripList_rtrim]
  simp only [field_filter, hval, hnotpre, hbang, h1, h2]
  simp only [Bool.false_eq_true, if_false, if_true, hstr]
  simp [hnb]

/-- C8 witness: the amended theorem applied to pattern `mars` and the
non-blank value `Mars Rover`. -/
theorem c8_witness :
    ("not ".data.isPrefixOf (stripList (lowerList "mars".data)) = false ∧
      ['!'].isPrefixOf (stripList (lowerList "mars".data)) = false ∧
      (stripList "Mars Rover".data).isEmpty = false) ∧
    field_filter (some "Mars Rover") ("!" ++ "mars") =
      !(field_filter (some "Mars Rover") "mars") :=
  ⟨⟨by decide, by decide, by decide⟩,
    c8_amended_negation_complement "mars" "Mars Rover" (by decide) (by decide) (by decide)⟩

/-- C9: a record whose targeted scalar field is absent, empty, or
whitespace-only satisfies every negated field-filter pattern (one whose
lower-cased, trimmed text begins with `!` or `not `): the negation
branch returns true on missing and blank values regardless of the
pattern body. -/
theorem c9_blank_negation (v : Option String) (value : String)
    (hneg : "not ".data.isPrefixOf (stripList (lowerList value.data)) = true ∨
      ['!'].isPrefixOf (stripList (lowerList value.data)) = true)
    (hblank : v = none ∨ ∃ s, v = some s ∧ stripList s.data = []) :
    field_filter v value = true := by
  unfold field_filter
  rcases hblank with rfl | ⟨s, rfl, hs⟩ <;>
    rcases hneg with h | h <;>
      by_cases hn : "not ".data.isPrefixOf (stripList (lowerList value.data)) = true <;>
        simp_all

/-- C9 witness: a record with empty abstract matches `abstract:!mars`. -/
theorem c9_witness :
    (['!'].isPrefixOf (stripList (lowerList "!mars".data)) = true) ∧
    field_filter (some "") "!mars" = true :=
  ⟨by decide, c9_blank_negation (some "") "!mars" (Or.inr (by decide))
    (Or.inr ⟨"", rfl, by decide⟩)⟩

/-- C10: when the parsed field-filter dict is non-empty, the evaluation
result depends only on that dict: two queries with the same non-empty
field filters produce identical results whatever their free-text
remainders are. -/
theorem c10_field_filters_determine (df : List Record) (q1 q2 : String)
    (hf : (parse_advanced_search q1).1 = (parse_advanced_search q2).1)
    (hne : (parse_advanced_search q1).1 ≠ []) :
    filter_dataframe_advanced df q1 = filter_dataframe_advanced df q2 := by
  have hne2 : (parse_advanced_search q2).1 ≠ [] := hf ▸ hne
  unfold filter_dataframe_advanced
  rw [fda_mask_filters_only q1.data.length df q1 hne,
      fda_mask_filters_only q2.data.length df q2 hne2, hf]

/-- C10 witness: the queries `title:mars venus` and `title:mars earth`
share the filter dict `title ↦ mars` and evaluate identically. -/
theorem c10_witness :
    filter_dataframe_advanced tbl "title:mars venus" =
      filter_dataframe_advanced tbl "title:mars earth" :=
  c10_field_filters_determine tbl _ _ (by decide) (by decide)
